import Mathlib

/-!
# Verification of PyDynamic's IIR fitting and uncertainty propagation core

Shallow embedding of the functions of
`PyDynamic/model_estimation/fit_filter.py` and
`PyDynamic/uncertainty/propagate_filter.py` that the frozen claims are
about, together with theorems settling each claim.

Modelling conventions:
* floating-point numbers are modelled by `ℚ` (the final elementwise
  `np.sqrt(np.abs(...))` of `IIRuncFilter` is kept symbolic, appearing in
  theorem statements as `Real.sqrt |(q : ℝ)|`);
* external numeric collaborators that live outside this repository
  (`np.roots` plus `np.abs`, `scipy.linalg.solve`,
  `scipy.linalg.solve_discrete_lyapunov`, `mapinside`, `grpdelay`,
  `np.median`/`np.ceil`, `scipy.signal.dimpulse`) are abstracted as
  function parameters or as data supplied alongside the oracle results;
* Python exceptions (`NameError`, `ValueError`) are modelled by
  `Except String`.
-/

open Matrix

/-! ## `LSIIR` and its helpers (`fit_filter.py`) -/

/-- `check_stability` from `LSIIR` (fit_filter.py lines 169-183):
`np.count_nonzero(np.abs(np.roots(denominator_coeff)) > 1) > 0`.
The external routine `np.abs(np.roots(·))` is abstracted away: the
function receives the list of magnitudes of the roots of the
denominator polynomial directly. -/
def check_stability (root_mags : List ℚ) : Bool :=
  decide (0 < root_mags.countP (fun m => decide (1 < m)))

/-- Result of one `_fitIIR` call, as consumed by the `LSIIR` loop.
`_fitIIR` itself is a dense least-squares solve on top of numpy
(`np.linalg.lstsq`); the `LSIIR` control flow only ever inspects the
returned coefficient vectors and the magnitudes of the roots of `a`
(via `np.roots`), so a fit outcome is modelled as this record and the
fitting routine as an oracle `ℤ → FitResult` indexed by the delay
`tau` it was called with. -/
structure FitResult where
  b : List ℚ
  a : List ℚ
  aRootMags : List ℚ
  deriving DecidableEq

/-- Triple returned by `LSIIR`. -/
structure LSIIRResult where
  b : List ℚ
  a : List ℚ
  tau : ℤ
  deriving DecidableEq

/-- The stabilization `while` loop of `LSIIR` (fit_filter.py lines
234-248).  The loop condition is
`unstable and current_stab_iter < max_stab_iter` with
`current_stab_iter` starting at `1`, so the remaining iteration budget
is `max_stab_iter - 1`; it is passed here as explicit fuel.  One body
iteration stabilizes via `mapinside`, computes both group delays and
updates `tau ← np.ceil(tau + np.median(g2 - g1))` — all of that
external numerics is abstracted into the oracle
`tauUpd : ℤ → FitResult → ℤ` — then refits at the new `tau` and sets
`unstable := False` exactly when `check_stability` holds of the new
denominator. -/
def stabLoop (fit : ℤ → FitResult) (tauUpd : ℤ → FitResult → ℤ) :
    ℕ → FitResult → ℤ → Bool → FitResult × ℤ × Bool
  | 0, fr, tau, unstable => (fr, tau, unstable)
  | fuel + 1, fr, tau, unstable =>
    if unstable then
      let tau' := tauUpd tau fr
      let fr' := fit tau'
      let unstable' := if check_stability fr'.aRootMags then false else unstable
      stabLoop fit tauUpd fuel fr' tau' unstable'
    else (fr, tau, unstable)

/-- `LSIIR` (fit_filter.py lines 94-263), control-flow-faithful model.

The argument `UHvals` models the truthiness of the Python parameter
`UHvals` in the two `if UHvals:` tests: `None` (the default) is falsy.
(Passing an actual `2M×2M` `np.ndarray` even raises
`ValueError: The truth value of an array with more than one element is
ambiguous` at the very first `if UHvals:`; a truthy value such as a
nonempty nested list reaches the fit.)  The entire fit — design
matrix, `_fitIIR` call, stability check, stabilization loop — sits
inside `if UHvals:`, so on a falsy `UHvals` the names `b`, `a`,
`unstable` and `current_stab_iter` are never bound and the trailing
`return b, a, int(tau)` (or the `if unstable:` in the verbose branch)
raises `NameError`. -/
def LSIIR (fit : ℤ → FitResult) (tauUpd : ℤ → FitResult → ℤ)
    (UHvals : Bool) (tau : ℤ) (justFit : Bool) (max_stab_iter : ℕ) :
    Except String LSIIRResult :=
  if UHvals then
    let fr := fit tau
    let unstable := ! check_stability fr.aRootMags
    if justFit then
      -- "Since no stabilization was done, we return tau = 0 regardless of the
      -- desired initial estimate of the time delay provided for the stabilization."
      .ok ⟨fr.b, fr.a, 0⟩
    else
      let r := stabLoop fit tauUpd (max_stab_iter - 1) fr tau unstable
      .ok ⟨r.1.b, r.1.a, r.2.1⟩
  else
    .error "NameError: name b is not defined"

/-! ## `FIRuncFilter` noise-model dispatch (propagate_filter.py lines 70-83) -/

/-- The `sigma_noise` argument of `FIRuncFilter`: a float or a 1-D array. -/
inductive SigmaNoise where
  | scalar : ℚ → SigmaNoise
  | arr : List ℚ → SigmaNoise
  deriving DecidableEq

/-- The value bound to `sigma2` by `FIRuncFilter`. -/
inductive Sigma2 where
  | scalar : ℚ → Sigma2
  | arr : List ℚ → Sigma2
  deriving DecidableEq

/-- The `sigma_noise`/`kind` dispatch at the top of `FIRuncFilter`
(propagate_filter.py lines 70-83).  For a float `sigma_noise` the
`kind` tag is never consulted; only for an array does an unrecognized
tag raise `ValueError("unknown kind of sigma_noise")`. -/
def FIRuncFilter_sigma2 : SigmaNoise → String → Except String Sigma2
  | .scalar s, _ => .ok (.scalar (s ^ 2))
  | .arr l, kind =>
    if kind = "diag" then .ok (.arr (l.map fun u => u ^ 2))
    else if kind = "corr" then .ok (.arr l)
    else .error "unknown kind of sigma_noise"

/-! ## Numerator padding in `IIRuncFilter` (propagate_filter.py lines 246-248) -/

/-- The dimension adjustment
`if not len(b) == len(a): b = np.hstack((b, np.zeros((len(a) - len(b),))))`.
When `len(b) > len(a)` the Python expression `np.zeros((len(a)-len(b),))`
is called with a negative size and raises
`ValueError: negative dimensions are not allowed`. -/
def IIR_pad_b (b a : List ℚ) : Except String (List ℚ) :=
  if b.length = a.length then .ok b
  else if b.length < a.length then .ok (b ++ List.replicate (a.length - b.length) 0)
  else .error "ValueError: negative dimensions are not allowed"

/-! ## `_tf2ss` (propagate_filter.py lines 318-330)

Coefficient vectors are indexed as `Fin (p+1) → ℚ` with `p = len(a) - 1`,
which builds the caller-side precondition `len(b) == len(a)` (established
by `IIR_pad_b`) into the type. -/

/-- The `A` matrix of `_tf2ss`:
`np.vstack([np.eye(p-1, p, k=1), -a[1:][::-1]])`.
Rows `0, …, p-2` come from `np.eye(p-1, p, k=1)` (ones on the first
superdiagonal); row `p-1` is `-a[1:][::-1]`, whose `j`-th entry is
`-a[p-j]`. -/
def tf2ssA (p : ℕ) (a : Fin (p + 1) → ℚ) : Matrix (Fin p) (Fin p) ℚ :=
  Matrix.of fun i j =>
    if (i : ℕ) < p - 1 then (if (j : ℕ) = (i : ℕ) + 1 then 1 else 0)
    else -a ⟨p - (j : ℕ), by omega⟩

/-- The `B` vector of `_tf2ss`: `B = np.zeros((p, 1)); B[-1] = 1`. -/
def tf2ssB (p : ℕ) : Fin p → ℚ :=
  fun i => if (i : ℕ) = p - 1 then 1 else 0

/-- The `C` row of `_tf2ss`: `(b[1:] - b[0] * a[1:])[::-1]`, whose `j`-th
entry is `b[p-j] - b[0]*a[p-j]`. -/
def tf2ssC (p : ℕ) (b a : Fin (p + 1) → ℚ) : Fin p → ℚ :=
  fun j => b ⟨p - (j : ℕ), by omega⟩ - b ⟨0, by omega⟩ * a ⟨p - (j : ℕ), by omega⟩

/-- The `D` scalar of `_tf2ss`: `np.ones((1,1)) * b[0]`. -/
def tf2ssD (p : ℕ) (b : Fin (p + 1) → ℚ) : ℚ :=
  b ⟨0, by omega⟩

/-! ## `_get_derivative_A` (propagate_filter.py lines 333-338) -/

/-- `_get_derivative_A`: the sparse tensor with
`dA[k, -1, -(k+1)] = -1` and all other entries zero, i.e. slice `k` has
a single `-1` at row `p-1`, column `p-1-k`. -/
def _get_derivative_A (p : ℕ) : Fin p → Matrix (Fin p) (Fin p) ℚ :=
  fun k => Matrix.of fun i j =>
    if (i : ℕ) = p - 1 ∧ (j : ℕ) = p - 1 - (k : ℕ) then -1 else 0

/-- `np.hstack(dA @ zs)`: the `p × p` matrix whose column `k` is
`dA[k] @ zs`. -/
def dA_hstack (p : ℕ) (z : Fin p → ℚ) : Matrix (Fin p) (Fin p) ℚ :=
  Matrix.of fun i k => ∑ j, _get_derivative_A p k i j * z j

/-! ## `get_initial_internal_state` (propagate_filter.py lines 357-407) -/

/-- The internal-state dictionary
`{"z": …, "dz": …, "P": …, "system": (A, B, C, D), "corr_unc": …}`
produced by `get_initial_internal_state` and consumed/re-exported by
`IIRuncFilter`. -/
structure IIRInternalState (p : ℕ) where
  z : Fin p → ℚ
  dz : Matrix (Fin p) (Fin p) ℚ
  P : Matrix (Fin p) (Fin p) ℚ
  A : Matrix (Fin p) (Fin p) ℚ
  bs : Fin p → ℚ
  cT : Fin p → ℚ
  b0 : ℚ
  corr_unc : ℚ

/-- `get_initial_internal_state(b, a, x0, U0, Ux)`.

The three scipy solvers are abstracted as function parameters:
`lsolve` models `scipy.linalg.solve` on a vector right-hand side,
`lsolveM` models it on a matrix right-hand side, and `dlyap` models
`scipy.linalg.solve_discrete_lyapunov`.  `_get_corr_unc` (which runs
`scipy.signal.dimpulse`) is abstracted as `getCorrUnc`, invoked exactly
when `Ux` is supplied as an array, mirroring
`if isinstance(Ux, np.ndarray): corr_unc = _get_corr_unc(b, a, Ux)
else: corr_unc = 0`. -/
def get_initial_internal_state (p : ℕ)
    (lsolve : Matrix (Fin p) (Fin p) ℚ → (Fin p → ℚ) → (Fin p → ℚ))
    (lsolveM : Matrix (Fin p) (Fin p) ℚ → Matrix (Fin p) (Fin p) ℚ →
      Matrix (Fin p) (Fin p) ℚ)
    (dlyap : Matrix (Fin p) (Fin p) ℚ → Matrix (Fin p) (Fin p) ℚ →
      Matrix (Fin p) (Fin p) ℚ)
    (getCorrUnc : List ℚ → ℚ)
    (b a : Fin (p + 1) → ℚ) (x0 U0 : ℚ) (UxOpt : Option (List ℚ)) :
    IIRInternalState p :=
  let A := tf2ssA p a
  let B := tf2ssB p
  let C := tf2ssC p b a
  let IminusA := 1 - A
  -- zs = scipy.linalg.solve(IminusA, B) * x0
  let zs := x0 • lsolve IminusA B
  -- dzs = scipy.linalg.solve(IminusA, np.hstack(dA @ zs))
  let dzs := lsolveM IminusA (dA_hstack p zs)
  -- Ps = scipy.linalg.solve_discrete_lyapunov(A, U0**2 * np.outer(B, B))
  let Ps := dlyap A (U0 ^ 2 • Matrix.vecMulVec B B)
  { z := zs, dz := dzs, P := Ps, A := A, bs := B, cT := C,
    b0 := tf2ssD p b,
    corr_unc := match UxOpt with
      | some ux => getCorrUnc ux
      | none => 0 }

/-! ## `IIRuncFilter` (propagate_filter.py lines 194-315) -/

/-- The sensitivity vector `phi` assembled in the loop body
(propagate_filter.py lines 288-290):
`phi[:p]  = np.transpose(cT @ dz - np.transpose(b0 * z[::-1]))`,
`phi[p]   = np.dot(-a[1:][::-1], z) + x[n]`,
`phi[p+1:] = z[::-1]`.
Here `a1 j = a[j+1]` is the tail `a[1:]` of the denominator. -/
def phiVec (p : ℕ) (cT : Fin p → ℚ) (dz : Matrix (Fin p) (Fin p) ℚ)
    (b0 : ℚ) (z : Fin p → ℚ) (a1 : Fin p → ℚ) (xn : ℚ) :
    Fin (2 * p + 1) → ℚ :=
  fun k =>
    if h : (k : ℕ) < p then
      (∑ i, cT i * dz i ⟨(k : ℕ), h⟩) - b0 * z ⟨p - 1 - (k : ℕ), by omega⟩
    else if h2 : (k : ℕ) = p then
      (∑ j : Fin p, -a1 ⟨p - 1 - (j : ℕ), by have := j.isLt; omega⟩ * z j) + xn
    else
      z ⟨p - 1 - ((k : ℕ) - (p + 1)), by have := k.isLt; omega⟩

/-- Mutable loop state of the `IIRuncFilter` recursion: the triple
`(z, dz, P)` as it stands before processing the next sample. -/
structure IIRLoopState (p : ℕ) where
  z : Fin p → ℚ
  dz : Matrix (Fin p) (Fin p) ℚ
  P : Matrix (Fin p) (Fin p) ℚ

/-- One iteration of the `for n in range(len(y))` loop of `IIRuncFilter`
(propagate_filter.py lines 285-307), producing the emitted `y[n]`, the
value stored in `Uy[n]` before the final `np.sqrt(np.abs(...))`, and
the updated `(z, dz, P)`.  The noise-model tag `kind` is dispatched by
string comparison `if kind == "diag": … else: …` exactly as in the
source. -/
def IIR_step (p : ℕ) (kind : String) (A : Matrix (Fin p) (Fin p) ℚ)
    (bs cT : Fin p → ℚ) (b0 : ℚ) (a1 : Fin p → ℚ)
    (Uab : Matrix (Fin (2 * p + 1)) (Fin (2 * p + 1)) ℚ)
    (corr_unc ux0 xn uxn : ℚ) (s : IIRLoopState p) :
    ℚ × ℚ × IIRLoopState p :=
  let phi := phiVec p cT s.dz b0 s.z a1 xn
  -- y[n] = np.dot(cT, z) + b0 * x[n]                                  (6)
  let y := cT ⬝ᵥ s.z + b0 * xn
  -- Uy[n] (before the final square root):
  --   diag: phi.T @ Uab @ phi + cT @ P @ cT.T + np.square(b0 * Ux[n]) (12)
  --   corr: phi.T @ Uab @ phi + corr_unc                              (19)
  let uy :=
    if kind = "diag" then phi ⬝ᵥ Uab.mulVec phi + cT ⬝ᵥ s.P.mulVec cT + (b0 * uxn) ^ 2
    else phi ⬝ᵥ Uab.mulVec phi + corr_unc
  -- P = A @ P @ A.T + np.square(Ux[n]) * np.outer(bs, bs)            (18)
  -- (corr: A @ P @ A.T + Ux[0] * np.outer(bs, bs))
  let Pn :=
    if kind = "diag" then A * s.P * Aᵀ + uxn ^ 2 • Matrix.vecMulVec bs bs
    else A * s.P * Aᵀ + ux0 • Matrix.vecMulVec bs bs
  -- dA_z = np.vstack((np.zeros((p-1, p)), -z[::-1].T))
  let dA_z : Matrix (Fin p) (Fin p) ℚ :=
    Matrix.of fun i j =>
      if (i : ℕ) = p - 1 then -s.z ⟨p - 1 - (j : ℕ), by have := j.isLt; omega⟩ else 0
  -- dz = A @ dz + dA_z                                               (17)
  let dzn := A * s.dz + dA_z
  -- z = A @ z + bs * x[n]                                            (6)
  let zn := A.mulVec s.z + xn • bs
  (y, uy, ⟨zn, dzn, Pn⟩)

/-- The full `for` loop of `IIRuncFilter`, consuming the zipped samples
`(x[n], Ux[n])` and threading `(z, dz, P)`.  Returns the output list
`y`, the list of values held in `Uy` before the final
`Uy = np.sqrt(np.abs(Uy))`, and the final loop state. -/
def IIR_loop (p : ℕ) (kind : String) (A : Matrix (Fin p) (Fin p) ℚ)
    (bs cT : Fin p → ℚ) (b0 : ℚ) (a1 : Fin p → ℚ)
    (Uab : Matrix (Fin (2 * p + 1)) (Fin (2 * p + 1)) ℚ)
    (corr_unc ux0 : ℚ) :
    List (ℚ × ℚ) → IIRLoopState p → List ℚ × List ℚ × IIRLoopState p
  | [], s => ([], [], s)
  | (xn, uxn) :: rest, s =>
    let o := IIR_step p kind A bs cT b0 a1 Uab corr_unc ux0 xn uxn s
    let r := IIR_loop p kind A bs cT b0 a1 Uab corr_unc ux0 rest o.2.2
    (o.1 :: r.1, o.2.1 :: r.2.1, r.2.2)

/-- `IIRuncFilter(x, Ux, b, a, Uab, init_internal_state, return_state, kind)`
(propagate_filter.py lines 194-315) after the dimension adjustment of
`b` (`IIR_pad_b`), so that `b` and `a` share the length `p + 1`.

* `Ux` is the already-broadcast per-sample uncertainty vector
  (`Ux = Ux * np.ones_like(x)` for a scalar input);
* `Uab = none` models a missing covariance, replaced by
  `np.zeros((2*p+1, 2*p+1))`;
* `init = none` models an empty (falsy) `init_internal_state`, in which
  case the initial state is computed by `get_initial_internal_state`
  with `x0 = 0.0, U0 = 0.0`, passing `Ux` along exactly when
  `kind` is not `"diag"`;
* the first returned component is `y`, the second is the value of `Uy`
  before the final `Uy = np.sqrt(np.abs(Uy))` (kept symbolic, see the
  module docstring), the third is the exported internal state
  (returned by the source when `return_state=True`). -/
def IIRuncFilter (p : ℕ)
    (lsolve : Matrix (Fin p) (Fin p) ℚ → (Fin p → ℚ) → (Fin p → ℚ))
    (lsolveM : Matrix (Fin p) (Fin p) ℚ → Matrix (Fin p) (Fin p) ℚ →
      Matrix (Fin p) (Fin p) ℚ)
    (dlyap : Matrix (Fin p) (Fin p) ℚ → Matrix (Fin p) (Fin p) ℚ →
      Matrix (Fin p) (Fin p) ℚ)
    (getCorrUnc : List ℚ → ℚ)
    (x Ux : List ℚ) (b a : Fin (p + 1) → ℚ)
    (Uab : Option (Matrix (Fin (2 * p + 1)) (Fin (2 * p + 1)) ℚ))
    (init : Option (IIRInternalState p)) (kind : String) :
    List ℚ × List ℚ × IIRInternalState p :=
  -- if not isinstance(Uab, np.ndarray): Uab = np.zeros((2*p+1, 2*p+1))
  let Uab' := Uab.getD 0
  let st0 :=
    match init with
    | some s => s
    | none =>
      if kind = "diag" then
        get_initial_internal_state p lsolve lsolveM dlyap getCorrUnc b a 0 0 none
      else
        get_initial_internal_state p lsolve lsolveM dlyap getCorrUnc b a 0 0 (some Ux)
  let r := IIR_loop p kind st0.A st0.bs st0.cT st0.b0 (fun j => a j.succ)
    Uab' st0.corr_unc (Ux.headD 0) (x.zip Ux) ⟨st0.z, st0.dz, st0.P⟩
  (r.1, r.2.1,
    { st0 with z := r.2.2.z, dz := r.2.2.dz, P := r.2.2.P })

/-! ## Theorems -/

/-- C1: The rewritten `check_stability` returns
`np.count_nonzero(np.abs(np.roots(a)) > 1) > 0`, which is `True` exactly
when some root lies strictly OUTSIDE the unit circle — the opposite of
its own docstring ("True if filter … is stable") and of the
pre-rewrite implementation kept in `test_identification.py`.  Since
`LSIIR` sets `unstable = not check_stability(a)`, a least-squares fit
whose denominator is stable (here: a single root of magnitude `0`, as
for `a = [1, 0]`) makes `unstable` `True`, so `LSIIR` ENTERS the
stabilization loop instead of returning immediately, and the loop — which
it can only leave early by producing an unstable fit — runs through the
whole budget: with `max_stab_iter = 50` and a delay update that adds 1
per iteration, the always-stable fit oracle yields `tau = 49` instead
of the immediate `tau = 0` the claim describes. -/
theorem check_stability_inverted_enters_loop_on_stable_fit :
    check_stability [(0 : ℚ)] = false ∧
    LSIIR (fun _ => ⟨[1], [1, 0], [(0 : ℚ)]⟩) (fun t _ => t + 1) true 0 false 50
      = .ok ⟨[1], [1, 0], 49⟩ := by
  exact ⟨rfl, rfl⟩

/-- C2: With `UHvals` falsy (the default `None`), the whole fit of
`LSIIR` — design matrix, `_fitIIR`, stability check, stabilization
loop — is skipped because it sits inside `if UHvals:`, and the final
`return b, a, int(tau)` raises `NameError`; no triple
`(b, a, tau)` with the claimed shapes is ever produced.  (The repo's
own `test_LSIIR_outputs_format` asserts exactly those shapes for such
a call.) -/
theorem LSIIR_without_UHvals_raises (fit : ℤ → FitResult)
    (tauUpd : ℤ → FitResult → ℤ) (tau : ℤ) (justFit : Bool) (max_stab_iter : ℕ) :
    LSIIR fit tauUpd false tau justFit max_stab_iter
      = .error "NameError: name b is not defined" := rfl

/-- C6 counterexample: `justFit = False` together with an iteration
budget `max_stab_iter = 0` is the documented "no stabilization" mode,
but the returned delay is the initial estimate (here `5`), not `0`:
the loop guard `current_stab_iter < max_stab_iter` fails at once and
the trailing `return b, a, int(tau)` returns the input `tau`
unchanged. -/
theorem LSIIR_budget_zero_returns_input_tau :
    LSIIR (fun _ => ⟨[1], [1, -2], [(2 : ℚ)]⟩) (fun t _ => t + 1) true 5 false 0
      = .ok ⟨[1], [1, -2], 5⟩ ∧ (5 : ℤ) ≠ 0 := by
  exact ⟨rfl, by decide⟩

/-- C6 amended: when the fit is reached at all (truthy `UHvals`),
`justFit = True` returns `tau = 0` regardless of the initial delay
estimate, while `max_stab_iter = 0` with `justFit = False` returns the
initial estimate unchanged. -/
theorem LSIIR_no_stabilization_tau (fit : ℤ → FitResult)
    (tauUpd : ℤ → FitResult → ℤ) (tau : ℤ) (m : ℕ) :
    LSIIR fit tauUpd true tau true m = .ok ⟨(fit tau).b, (fit tau).a, 0⟩ ∧
    LSIIR fit tauUpd true tau false 0 = .ok ⟨(fit tau).b, (fit tau).a, tau⟩ := by
  exact ⟨rfl, rfl⟩

/-- C7 counterexample: a numerator LONGER than the denominator is not
zero-padded-and-processed; `np.zeros((len(a) - len(b),))` is called
with a negative size and raises `ValueError`. -/
theorem IIR_pad_b_longer_numerator_raises :
    IIR_pad_b [1, 2, 3] [1, -1/2]
      = .error "ValueError: negative dimensions are not allowed" := rfl

/-- C7 amended: only a numerator SHORTER than the denominator is
zero-padded to `len(a)` (after which the call proceeds); equal lengths
pass through unchanged, and a longer numerator raises `ValueError`
(see the counterexample). -/
theorem IIR_pad_b_pads_shorter_numerator (b a : List ℚ)
    (h : b.length < a.length) :
    IIR_pad_b b a = .ok (b ++ List.replicate (a.length - b.length) 0) ∧
    (b ++ List.replicate (a.length - b.length) (0 : ℚ)).length = a.length := by
  constructor
  · unfold IIR_pad_b
    rw [if_neg (by omega), if_pos h]
  · simp only [List.length_append, List.length_replicate]
    omega

/-- Witness for the amended C7 statement at `b = [1]`, `a = [1, -1/2, 1/4]`. -/
theorem IIR_pad_b_pads_shorter_numerator_witness :
    ([(1 : ℚ)].length < [(1 : ℚ), -1/2, 1/4].length) ∧
    (IIR_pad_b [(1 : ℚ)] [(1 : ℚ), -1/2, 1/4]
        = .ok ([(1 : ℚ)] ++ List.replicate ([(1 : ℚ), -1/2, 1/4].length - [(1 : ℚ)].length) 0) ∧
      ([(1 : ℚ)] ++ List.replicate ([(1 : ℚ), -1/2, 1/4].length - [(1 : ℚ)].length) (0 : ℚ)).length
        = [(1 : ℚ), -1/2, 1/4].length) := by
  exact ⟨by decide, IIR_pad_b_pads_shorter_numerator _ _ (by decide)⟩

/-- Helper: indexing a reversed `List.ofFn`. -/
theorem get_ofFn_reverse {α : Type} (p : ℕ) (f : Fin p → α) (j : ℕ)
    (h : j < ((List.ofFn f).reverse).length) :
    ((List.ofFn f).reverse).get ⟨j, h⟩
      = f ⟨p - 1 - j, by simp at h; omega⟩ := by
  rw [List.get_eq_getElem, List.getElem_reverse]
  simp only [List.getElem_ofFn]
  congr 1
  simp only [List.length_reverse, List.length_ofFn] at h
  ext
  simp

/-- C9: `_tf2ss` realizes the observable canonical form described by the
spec: the first `p-1` rows of `A` are the shifted identity
`np.eye(p-1, p, k=1)`, its last row is the negated reversal of the
lower-order denominator coefficients `a[1:]`, `B` is zero except for a
`1` in its last entry, `C` is `(b[1:] - b[0]*a[1:])` reversed, and `D`
is the scalar `b[0]`.  Rows are compared as lists so that "reversed"
is the genuine `List.reverse`. -/
theorem tf2ss_observable_canonical (p : ℕ) (b a : Fin (p + 1) → ℚ) :
    (∀ i j : Fin p, (i : ℕ) < p - 1 →
        tf2ssA p a i j = if (j : ℕ) = (i : ℕ) + 1 then 1 else 0) ∧
    (∀ i : Fin p, (i : ℕ) = p - 1 →
        List.ofFn (fun j => tf2ssA p a i j)
          = (List.ofFn fun k : Fin p => -a k.succ).reverse) ∧
    tf2ssB p = (fun i : Fin p => if (i : ℕ) = p - 1 then (1 : ℚ) else 0) ∧
    List.ofFn (tf2ssC p b a)
      = (List.ofFn fun k : Fin p => b k.succ - b 0 * a k.succ).reverse ∧
    tf2ssD p b = b 0 := by
  refine ⟨?_, ?_, rfl, ?_, ?_⟩
  · intro i j hij
    simp only [tf2ssA, Matrix.of_apply, if_pos hij]
  · intro i hi
    have hp : 0 < p := lt_of_le_of_lt (Nat.zero_le _) i.isLt
    apply List.ext_get (by simp)
    intro n h1 h2
    rw [List.get_eq_getElem, List.getElem_ofFn, get_ofFn_reverse]
    simp only [List.length_ofFn] at h1
    simp only [tf2ssA, Matrix.of_apply, if_neg (by omega : ¬ (i : ℕ) < p - 1)]
    congr 2
    ext
    simp only [Fin.val_succ]
    omega
  · apply List.ext_get (by simp)
    intro n h1 h2
    rw [List.get_eq_getElem, List.getElem_ofFn, get_ofFn_reverse]
    simp only [List.length_ofFn] at h1
    simp only [tf2ssC]
    have h0 : (⟨0, by omega⟩ : Fin (p + 1)) = 0 := by
      ext; simp
    have hidx : (⟨p - (n : ℕ), by omega⟩ : Fin (p + 1))
        = (⟨p - 1 - n, by omega⟩ : Fin p).succ := by
      ext
      simp only [Fin.val_succ]
      omega
    rw [h0, hidx]
  · have h0 : (⟨0, by omega⟩ : Fin (p + 1)) = 0 := by
      ext
      simp
    exact congrArg b h0

/-- Witness for `tf2ss_observable_canonical` at `p = 2`, `b = ![2, 3, 6]`,
`a = ![1, 4, 5]`, instantiating the last-row conjunct at `i = 1`. -/
theorem tf2ss_observable_canonical_witness :
    ((1 : ℕ) = 2 - 1) ∧
    List.ofFn (fun j => tf2ssA 2 ![1, 4, 5] ⟨1, by omega⟩ j)
      = (List.ofFn fun k : Fin 2 => -(![1, 4, 5] : Fin 3 → ℚ) k.succ).reverse := by
  exact ⟨rfl, (tf2ss_observable_canonical 2 ![2, 3, 6] ![1, 4, 5]).2.1 ⟨1, by omega⟩ rfl⟩

/-- Helper: inside the sample loop the noise-model tag is only ever
consulted through `if kind == "diag"`, so every tag other than
`"diag"` takes exactly the `"corr"` branches. -/
theorem IIR_loop_kind_ne_diag (p : ℕ) (kind : String) (h : kind ≠ "diag")
    (A : Matrix (Fin p) (Fin p) ℚ) (bs cT : Fin p → ℚ) (b0 : ℚ)
    (a1 : Fin p → ℚ) (Uab : Matrix (Fin (2 * p + 1)) (Fin (2 * p + 1)) ℚ)
    (corr_unc ux0 : ℚ) (l : List (ℚ × ℚ)) (s : IIRLoopState p) :
    IIR_loop p kind A bs cT b0 a1 Uab corr_unc ux0 l s
      = IIR_loop p "corr" A bs cT b0 a1 Uab corr_unc ux0 l s := by
  induction l generalizing s with
  | nil => rfl
  | cons hd tl ih =>
    obtain ⟨xn, uxn⟩ := hd
    simp only [IIR_loop, IIR_step, if_neg h,
      if_neg (by decide : ¬ ("corr" : String) = "diag")]
    rw [ih]

/-- C5 counterexample: a call of `IIRuncFilter` with the unrecognized
noise-model tag `"quux"` does not fail; it silently produces exactly
the `"corr"` result. -/
theorem IIRuncFilter_unknown_kind_silently_corr :
    IIRuncFilter 1 (fun _ v => v) (fun _ M => M) (fun _ Q => Q) (fun _ => 0)
        [1, 2] [1, 1] ![1, 0] ![1, 0] none none "quux"
      = IIRuncFilter 1 (fun _ v => v) (fun _ M => M) (fun _ Q => Q) (fun _ => 0)
        [1, 2] [1, 1] ![1, 0] ![1, 0] none none "corr" := by
  rfl

/-- C5 amended: `FIRuncFilter` rejects an unknown tag only when
`sigma_noise` is an array (raising
`ValueError("unknown kind of sigma_noise")` before any computation);
with a float `sigma_noise` the tag is ignored and the call proceeds.
`IIRuncFilter` never validates `kind`: any tag other than `"diag"`
is treated exactly like `"corr"`. -/
theorem noise_kind_dispatch_amended (kind : String)
    (h1 : kind ≠ "diag") (h2 : kind ≠ "corr") (l : List ℚ) (sn : ℚ)
    (p : ℕ)
    (lsolve : Matrix (Fin p) (Fin p) ℚ → (Fin p → ℚ) → (Fin p → ℚ))
    (lsolveM : Matrix (Fin p) (Fin p) ℚ → Matrix (Fin p) (Fin p) ℚ →
      Matrix (Fin p) (Fin p) ℚ)
    (dlyap : Matrix (Fin p) (Fin p) ℚ → Matrix (Fin p) (Fin p) ℚ →
      Matrix (Fin p) (Fin p) ℚ)
    (getCorrUnc : List ℚ → ℚ)
    (x Ux : List ℚ) (b a : Fin (p + 1) → ℚ)
    (Uab : Option (Matrix (Fin (2 * p + 1)) (Fin (2 * p + 1)) ℚ))
    (init : Option (IIRInternalState p)) :
    FIRuncFilter_sigma2 (.arr l) kind = .error "unknown kind of sigma_noise" ∧
    FIRuncFilter_sigma2 (.scalar sn) kind = .ok (.scalar (sn ^ 2)) ∧
    IIRuncFilter p lsolve lsolveM dlyap getCorrUnc x Ux b a Uab init kind
      = IIRuncFilter p lsolve lsolveM dlyap getCorrUnc x Ux b a Uab init "corr" := by
  refine ⟨?_, rfl, ?_⟩
  · simp only [FIRuncFilter_sigma2, if_neg h1, if_neg h2]
  · unfold IIRuncFilter
    cases init with
    | some s =>
      simp only []
      rw [IIR_loop_kind_ne_diag p kind h1]
    | none =>
      simp only [if_neg h1, if_neg (by decide : ¬ ("corr" : String) = "diag")]
      rw [IIR_loop_kind_ne_diag p kind h1]

/-- Witness for the amended C5 statement at `kind = "quux"`. -/
theorem noise_kind_dispatch_amended_witness :
    (("quux" : String) ≠ "diag" ∧ ("quux" : String) ≠ "corr") ∧
    (FIRuncFilter_sigma2 (.arr [1, 2]) "quux"
        = .error "unknown kind of sigma_noise" ∧
      FIRuncFilter_sigma2 (.scalar 3) "quux" = .ok (.scalar (3 ^ 2)) ∧
      IIRuncFilter 1 (fun _ v => v) (fun _ M => M) (fun _ Q => Q) (fun _ => 0)
          [1] [2] ![1, 1] ![1, 1] none none "quux"
        = IIRuncFilter 1 (fun _ v => v) (fun _ M => M) (fun _ Q => Q) (fun _ => 0)
          [1] [2] ![1, 1] ![1, 1] none none "corr") := by
  exact ⟨⟨by decide, by decide⟩,
    noise_kind_dispatch_amended "quux" (by decide) (by decide) [1, 2] 3 1
      (fun _ v => v) (fun _ M => M) (fun _ Q => Q) (fun _ => 0)
      [1] [2] ![1, 1] ![1, 1] none none⟩

/-- Helper: quadratic form as a double sum. -/
theorem dot_mulVec_expand {n : ℕ} (v : Fin n → ℚ) (M : Matrix (Fin n) (Fin n) ℚ)
    (w : Fin n → ℚ) :
    v ⬝ᵥ M.mulVec w = ∑ i, ∑ j, v i * M i j * w j := by
  simp [dotProduct, Matrix.mulVec, Finset.mul_sum, mul_assoc]

/-- Helper: one `"diag"` iteration of the sample loop, with the emitted
output, the stored pre-square-root uncertainty and the three state
updates written out as the explicit formulas of the spec (sums instead
of matrix primitives, genuine `List.reverse` for the reversals). -/
theorem IIR_step_diag_spec (p : ℕ) (A : Matrix (Fin p) (Fin p) ℚ)
    (bs cT : Fin p → ℚ) (b0 : ℚ) (a1 : Fin p → ℚ)
    (Uab : Matrix (Fin (2 * p + 1)) (Fin (2 * p + 1)) ℚ)
    (corr_unc ux0 xn uxn : ℚ) (s : IIRLoopState p) :
    IIR_step p "diag" A bs cT b0 a1 Uab corr_unc ux0 xn uxn s
      = ((∑ i, cT i * s.z i) + b0 * xn,
         (∑ i, ∑ j, phiVec p cT s.dz b0 s.z a1 xn i * Uab i j
             * phiVec p cT s.dz b0 s.z a1 xn j)
           + (∑ i, ∑ j, cT i * s.P i j * cT j) + (b0 * uxn) ^ 2,
         ⟨A.mulVec s.z + xn • bs,
          A * s.dz + Matrix.of fun (i j : Fin p) =>
            (if (i : ℕ) = p - 1
             then -((List.ofFn s.z).reverse.get ⟨(j : ℕ), by simp⟩)
             else 0),
          A * s.P * Aᵀ + uxn ^ 2 • Matrix.vecMulVec bs bs⟩) := by
  have hdz : (Matrix.of fun (i j : Fin p) =>
        if (i : ℕ) = p - 1 then -s.z ⟨p - 1 - (j : ℕ), by have := j.isLt; omega⟩ else (0 : ℚ))
      = Matrix.of fun (i j : Fin p) =>
        (if (i : ℕ) = p - 1
         then -((List.ofFn s.z).reverse.get ⟨(j : ℕ), by simp⟩)
         else 0) := by
    ext i j
    simp only [Matrix.of_apply]
    by_cases hij : (i : ℕ) = p - 1
    · rw [if_pos hij, if_pos hij, get_ofFn_reverse]
    · rw [if_neg hij, if_neg hij]
  unfold IIR_step
  simp only [eq_self_iff_true, if_true]
  rw [dot_mulVec_expand, dot_mulVec_expand, hdz]
  rfl

/-- C3: in the uncorrelated mode (`kind = "diag"`) each sample first
emits `y[n] = Cᵗz + b0·x[n]`, then stores the pre-square-root
uncertainty `φᵗ·Uab·φ + Cᵗ·P·C + (b0·Ux[n])²`, and only then updates
the state quantities in the order `P ← A·P·Aᵀ + Ux[n]²·B·Bᵗ`, then
`dz ← A·dz + dA_z` with `dA_z` zero except for its last row
`-reverse(z)` (both updates reading the pre-update `z`), and finally
`z ← A·z + B·x[n]`; after the loop the stored values are turned into
standard uncertainties by the elementwise nonnegative square root of
their absolute value (kept symbolic as `Real.sqrt |·|`). -/
theorem IIRuncFilter_diag_sample_formulas (p : ℕ)
    (A : Matrix (Fin p) (Fin p) ℚ) (bs cT : Fin p → ℚ) (b0 : ℚ)
    (a1 : Fin p → ℚ) (Uab : Matrix (Fin (2 * p + 1)) (Fin (2 * p + 1)) ℚ)
    (corr_unc ux0 xn uxn : ℚ) (rest : List (ℚ × ℚ)) (s : IIRLoopState p) :
    (IIR_loop p "diag" A bs cT b0 a1 Uab corr_unc ux0 ((xn, uxn) :: rest) s =
      (((∑ i, cT i * s.z i) + b0 * xn) ::
          (IIR_loop p "diag" A bs cT b0 a1 Uab corr_unc ux0 rest
            ⟨A.mulVec s.z + xn • bs,
             A * s.dz + Matrix.of fun (i j : Fin p) =>
               (if (i : ℕ) = p - 1
                then -((List.ofFn s.z).reverse.get ⟨(j : ℕ), by simp⟩)
                else 0),
             A * s.P * Aᵀ + uxn ^ 2 • Matrix.vecMulVec bs bs⟩).1,
        ((∑ i, ∑ j, phiVec p cT s.dz b0 s.z a1 xn i * Uab i j
             * phiVec p cT s.dz b0 s.z a1 xn j)
           + (∑ i, ∑ j, cT i * s.P i j * cT j) + (b0 * uxn) ^ 2) ::
          (IIR_loop p "diag" A bs cT b0 a1 Uab corr_unc ux0 rest
            ⟨A.mulVec s.z + xn • bs,
             A * s.dz + Matrix.of fun (i j : Fin p) =>
               (if (i : ℕ) = p - 1
                then -((List.ofFn s.z).reverse.get ⟨(j : ℕ), by simp⟩)
                else 0),
             A * s.P * Aᵀ + uxn ^ 2 • Matrix.vecMulVec bs bs⟩).2.1,
        (IIR_loop p "diag" A bs cT b0 a1 Uab corr_unc ux0 rest
            ⟨A.mulVec s.z + xn • bs,
             A * s.dz + Matrix.of fun (i j : Fin p) =>
               (if (i : ℕ) = p - 1
                then -((List.ofFn s.z).reverse.get ⟨(j : ℕ), by simp⟩)
                else 0),
             A * s.P * Aᵀ + uxn ^ 2 • Matrix.vecMulVec bs bs⟩).2.2)) ∧
    ((IIR_loop p "diag" A bs cT b0 a1 Uab corr_unc ux0 ((xn, uxn) :: rest) s).2.1.Forall
      (fun q => Real.sqrt |(q : ℝ)| ^ 2 = |(q : ℝ)| ∧ 0 ≤ Real.sqrt |(q : ℝ)|)) := by
  constructor
  · simp only [IIR_loop]
    rw [IIR_step_diag_spec]
  · rw [List.forall_iff_forall_mem]
    intro q _
    exact ⟨Real.sq_sqrt (abs_nonneg _), Real.sqrt_nonneg _⟩

/-- Helper: the sample loop over a concatenation is the first loop
followed by the second loop started from the first loop's final state,
with the output lists concatenated. -/
theorem IIR_loop_append (p : ℕ) (kind : String) (A : Matrix (Fin p) (Fin p) ℚ)
    (bs cT : Fin p → ℚ) (b0 : ℚ) (a1 : Fin p → ℚ)
    (Uab : Matrix (Fin (2 * p + 1)) (Fin (2 * p + 1)) ℚ) (corr_unc ux0 : ℚ)
    (l1 l2 : List (ℚ × ℚ)) (s : IIRLoopState p) :
    IIR_loop p kind A bs cT b0 a1 Uab corr_unc ux0 (l1 ++ l2) s
      = ((IIR_loop p kind A bs cT b0 a1 Uab corr_unc ux0 l1 s).1
            ++ (IIR_loop p kind A bs cT b0 a1 Uab corr_unc ux0 l2
                (IIR_loop p kind A bs cT b0 a1 Uab corr_unc ux0 l1 s).2.2).1,
          (IIR_loop p kind A bs cT b0 a1 Uab corr_unc ux0 l1 s).2.1
            ++ (IIR_loop p kind A bs cT b0 a1 Uab corr_unc ux0 l2
                (IIR_loop p kind A bs cT b0 a1 Uab corr_unc ux0 l1 s).2.2).2.1,
          (IIR_loop p kind A bs cT b0 a1 Uab corr_unc ux0 l2
            (IIR_loop p kind A bs cT b0 a1 Uab corr_unc ux0 l1 s).2.2).2.2) := by
  induction l1 generalizing s with
  | nil => simp [IIR_loop]
  | cons hd tl ih =>
    obtain ⟨xn, uxn⟩ := hd
    simp only [List.cons_append, IIR_loop, List.append_eq]
    rw [ih]

/-- Helper: in the `"diag"` branches the fixed scalar `Ux[0]` (only
used by the `"corr"` state-covariance update) never enters the
computation. -/
theorem IIR_loop_diag_ux0_irrel (p : ℕ) (A : Matrix (Fin p) (Fin p) ℚ)
    (bs cT : Fin p → ℚ) (b0 : ℚ) (a1 : Fin p → ℚ)
    (Uab : Matrix (Fin (2 * p + 1)) (Fin (2 * p + 1)) ℚ) (corr_unc ux0 ux0' : ℚ)
    (l : List (ℚ × ℚ)) (s : IIRLoopState p) :
    IIR_loop p "diag" A bs cT b0 a1 Uab corr_unc ux0 l s
      = IIR_loop p "diag" A bs cT b0 a1 Uab corr_unc ux0' l s := by
  induction l generalizing s with
  | nil => rfl
  | cons hd tl ih =>
    obtain ⟨xn, uxn⟩ := hd
    simp only [IIR_loop, IIR_step, eq_self_iff_true, if_true]
    rw [ih]

/-- Helper: chunked processing in `"diag"` mode, allowing each chunk its
own (irrelevant) `Ux[0]` scalar. -/
theorem IIR_loop_diag_append_chunks (p : ℕ) (A : Matrix (Fin p) (Fin p) ℚ)
    (bs cT : Fin p → ℚ) (b0 : ℚ) (a1 : Fin p → ℚ)
    (Uab : Matrix (Fin (2 * p + 1)) (Fin (2 * p + 1)) ℚ) (corr_unc u1 u2 u3 : ℚ)
    (l1 l2 : List (ℚ × ℚ)) (s : IIRLoopState p) :
    (IIR_loop p "diag" A bs cT b0 a1 Uab corr_unc u1 (l1 ++ l2) s).1
      = (IIR_loop p "diag" A bs cT b0 a1 Uab corr_unc u2 l1 s).1
        ++ (IIR_loop p "diag" A bs cT b0 a1 Uab corr_unc u3 l2
            (IIR_loop p "diag" A bs cT b0 a1 Uab corr_unc u2 l1 s).2.2).1 ∧
    (IIR_loop p "diag" A bs cT b0 a1 Uab corr_unc u1 (l1 ++ l2) s).2.1
      = (IIR_loop p "diag" A bs cT b0 a1 Uab corr_unc u2 l1 s).2.1
        ++ (IIR_loop p "diag" A bs cT b0 a1 Uab corr_unc u3 l2
            (IIR_loop p "diag" A bs cT b0 a1 Uab corr_unc u2 l1 s).2.2).2.1 ∧
    (IIR_loop p "diag" A bs cT b0 a1 Uab corr_unc u1 (l1 ++ l2) s).2.2
      = (IIR_loop p "diag" A bs cT b0 a1 Uab corr_unc u3 l2
          (IIR_loop p "diag" A bs cT b0 a1 Uab corr_unc u2 l1 s).2.2).2.2 := by
  rw [IIR_loop_append p "diag" A bs cT b0 a1 Uab corr_unc u1 l1 l2 s,
    IIR_loop_diag_ux0_irrel p A bs cT b0 a1 Uab corr_unc u1 u2 l1 s]
  rw [IIR_loop_diag_ux0_irrel p A bs cT b0 a1 Uab corr_unc u1 u3 l2
    (IIR_loop p "diag" A bs cT b0 a1 Uab corr_unc u2 l1 s).2.2]
  exact ⟨rfl, rfl, rfl⟩

/-- C4: checkpoint round-trip composability in the default `"diag"`
mode.  Propagating `x1 ++ x2` (with per-sample uncertainties
`ux1 ++ ux2`) in one call yields the same outputs `y` and the same
pre-square-root uncertainties — hence, after the elementwise
`Real.sqrt |·|`, the same `Uy` — as propagating `x1` with
`return_state`, then propagating `x2` from the exported internal
state. -/
theorem IIRuncFilter_checkpoint_roundtrip (p : ℕ)
    (lsolve : Matrix (Fin p) (Fin p) ℚ → (Fin p → ℚ) → (Fin p → ℚ))
    (lsolveM : Matrix (Fin p) (Fin p) ℚ → Matrix (Fin p) (Fin p) ℚ →
      Matrix (Fin p) (Fin p) ℚ)
    (dlyap : Matrix (Fin p) (Fin p) ℚ → Matrix (Fin p) (Fin p) ℚ →
      Matrix (Fin p) (Fin p) ℚ)
    (getCorrUnc : List ℚ → ℚ)
    (x1 ux1 x2 ux2 : List ℚ) (b a : Fin (p + 1) → ℚ)
    (Uab : Option (Matrix (Fin (2 * p + 1)) (Fin (2 * p + 1)) ℚ))
    (h : x1.length = ux1.length) :
    (IIRuncFilter p lsolve lsolveM dlyap getCorrUnc (x1 ++ x2) (ux1 ++ ux2)
        b a Uab none "diag").1
      = (IIRuncFilter p lsolve lsolveM dlyap getCorrUnc x1 ux1 b a Uab none "diag").1
        ++ (IIRuncFilter p lsolve lsolveM dlyap getCorrUnc x2 ux2 b a Uab
            (some (IIRuncFilter p lsolve lsolveM dlyap getCorrUnc x1 ux1 b a Uab
              none "diag").2.2) "diag").1 ∧
    (IIRuncFilter p lsolve lsolveM dlyap getCorrUnc (x1 ++ x2) (ux1 ++ ux2)
        b a Uab none "diag").2.1
      = (IIRuncFilter p lsolve lsolveM dlyap getCorrUnc x1 ux1 b a Uab none "diag").2.1
        ++ (IIRuncFilter p lsolve lsolveM dlyap getCorrUnc x2 ux2 b a Uab
            (some (IIRuncFilter p lsolve lsolveM dlyap getCorrUnc x1 ux1 b a Uab
              none "diag").2.2) "diag").2.1 ∧
    ((IIRuncFilter p lsolve lsolveM dlyap getCorrUnc (x1 ++ x2) (ux1 ++ ux2)
        b a Uab none "diag").2.1.map fun q : ℚ => Real.sqrt |(q : ℝ)|)
      = ((IIRuncFilter p lsolve lsolveM dlyap getCorrUnc x1 ux1 b a Uab none
          "diag").2.1.map fun q : ℚ => Real.sqrt |(q : ℝ)|)
        ++ ((IIRuncFilter p lsolve lsolveM dlyap getCorrUnc x2 ux2 b a Uab
            (some (IIRuncFilter p lsolve lsolveM dlyap getCorrUnc x1 ux1 b a Uab
              none "diag").2.2) "diag").2.1.map fun q : ℚ => Real.sqrt |(q : ℝ)|) := by
  unfold IIRuncFilter
  rw [List.zip_append h]
  refine ⟨(IIR_loop_diag_append_chunks p _ _ _ _ _ _ _ _ _ _ _ _ _).1,
    (IIR_loop_diag_append_chunks p _ _ _ _ _ _ _ _ _ _ _ _ _).2.1, ?_⟩
  rw [(IIR_loop_diag_append_chunks p _ _ _ _ _ _ _ _ (ux1.headD 0) (ux2.headD 0)
    _ _ _).2.1, List.map_append]
  rfl

/-- Witness for the checkpoint round-trip at a concrete first-order
filter and two one-sample chunks. -/
theorem IIRuncFilter_checkpoint_roundtrip_witness :
    ([(1 : ℚ)].length = [(0 : ℚ)].length) ∧
    ((IIRuncFilter 1 (fun _ v => v) (fun _ M => M) (fun _ Q => Q) (fun _ => 0)
        ([(1 : ℚ)] ++ [2]) ([(0 : ℚ)] ++ [3]) ![1, 1] ![1, 1] none none "diag").1
      = (IIRuncFilter 1 (fun _ v => v) (fun _ M => M) (fun _ Q => Q) (fun _ => 0)
          [(1 : ℚ)] [(0 : ℚ)] ![1, 1] ![1, 1] none none "diag").1
        ++ (IIRuncFilter 1 (fun _ v => v) (fun _ M => M) (fun _ Q => Q) (fun _ => 0)
            [2] [3] ![1, 1] ![1, 1] none
            (some (IIRuncFilter 1 (fun _ v => v) (fun _ M => M) (fun _ Q => Q)
              (fun _ => 0) [(1 : ℚ)] [(0 : ℚ)] ![1, 1] ![1, 1] none none
              "diag").2.2) "diag").1 ∧
    (IIRuncFilter 1 (fun _ v => v) (fun _ M => M) (fun _ Q => Q) (fun _ => 0)
        ([(1 : ℚ)] ++ [2]) ([(0 : ℚ)] ++ [3]) ![1, 1] ![1, 1] none none "diag").2.1
      = (IIRuncFilter 1 (fun _ v => v) (fun _ M => M) (fun _ Q => Q) (fun _ => 0)
          [(1 : ℚ)] [(0 : ℚ)] ![1, 1] ![1, 1] none none "diag").2.1
        ++ (IIRuncFilter 1 (fun _ v => v) (fun _ M => M) (fun _ Q => Q) (fun _ => 0)
            [2] [3] ![1, 1] ![1, 1] none
            (some (IIRuncFilter 1 (fun _ v => v) (fun _ M => M) (fun _ Q => Q)
              (fun _ => 0) [(1 : ℚ)] [(0 : ℚ)] ![1, 1] ![1, 1] none none
              "diag").2.2) "diag").2.1 ∧
    ((IIRuncFilter 1 (fun _ v => v) (fun _ M => M) (fun _ Q => Q) (fun _ => 0)
        ([(1 : ℚ)] ++ [2]) ([(0 : ℚ)] ++ [3]) ![1, 1] ![1, 1] none none
        "diag").2.1.map fun q : ℚ => Real.sqrt |(q : ℝ)|)
      = ((IIRuncFilter 1 (fun _ v => v) (fun _ M => M) (fun _ Q => Q) (fun _ => 0)
          [(1 : ℚ)] [(0 : ℚ)] ![1, 1] ![1, 1] none none
          "diag").2.1.map fun q : ℚ => Real.sqrt |(q : ℝ)|)
        ++ ((IIRuncFilter 1 (fun _ v => v) (fun _ M => M) (fun _ Q => Q) (fun _ => 0)
            [2] [3] ![1, 1] ![1, 1] none
            (some (IIRuncFilter 1 (fun _ v => v) (fun _ M => M) (fun _ Q => Q)
              (fun _ => 0) [(1 : ℚ)] [(0 : ℚ)] ![1, 1] ![1, 1] none none
              "diag").2.2) "diag").2.1.map fun q : ℚ => Real.sqrt |(q : ℝ)|)) := by
  exact ⟨rfl, IIRuncFilter_checkpoint_roundtrip 1 (fun _ v => v) (fun _ M => M)
    (fun _ Q => Q) (fun _ => 0) [(1 : ℚ)] [(0 : ℚ)] [2] [3] ![1, 1] ![1, 1] none rfl⟩

/-- Helper: in `"diag"` mode with a zero coefficient covariance and zero
per-sample input uncertainties, the state covariance `P` stays zero and
every stored pre-square-root uncertainty is zero. -/
theorem IIR_loop_diag_zero_unc (p : ℕ) (A : Matrix (Fin p) (Fin p) ℚ)
    (bs cT : Fin p → ℚ) (b0 : ℚ) (a1 : Fin p → ℚ) (corr_unc ux0 : ℚ)
    (l : List (ℚ × ℚ)) :
    ∀ s : IIRLoopState p, s.P = 0 → (∀ pr ∈ l, pr.2 = 0) →
      (∀ q ∈ (IIR_loop p "diag" A bs cT b0 a1 0 corr_unc ux0 l s).2.1, q = 0) ∧
      (IIR_loop p "diag" A bs cT b0 a1 0 corr_unc ux0 l s).2.2.P = 0 := by
  induction l with
  | nil =>
    intro s hP _
    exact ⟨by simp [IIR_loop], hP⟩
  | cons hd tl ih =>
    intro s hP hl
    obtain ⟨xn, uxn⟩ := hd
    have hux : uxn = 0 := hl (xn, uxn) (List.mem_cons_self _ _)
    have hP' : (IIR_step p "diag" A bs cT b0 a1 0 corr_unc ux0 xn uxn s).2.2.P = 0 := by
      simp [IIR_step, hP, hux]
    have huy : (IIR_step p "diag" A bs cT b0 a1 0 corr_unc ux0 xn uxn s).2.1 = 0 := by
      simp [IIR_step, hP, hux]
    obtain ⟨ih1, ih2⟩ := ih (IIR_step p "diag" A bs cT b0 a1 0 corr_unc ux0 xn uxn s).2.2
      hP' (fun pr hpr => hl pr (List.mem_cons_of_mem _ hpr))
    constructor
    · intro q hq
      simp only [IIR_loop] at hq
      rcases List.mem_cons.mp hq with hq | hq
      · rw [hq, huy]
      · exact ih1 q hq
    · simp only [IIR_loop]
      exact ih2

/-- C8: with the coefficient covariance `Uab` absent (defaulted to the
zero matrix) or supplied as all-zero, and the per-sample input
uncertainty `Ux` all-zero, every pre-square-root uncertainty stored by
`IIRuncFilter` in its default `"diag"` mode is zero, hence so is every
entry of the returned `Uy = sqrt(|...|)`.  The hypothesis on `dlyap`
records what `scipy.linalg.solve_discrete_lyapunov` returns on the zero
right-hand side produced by `U0 = 0`. -/
theorem IIRuncFilter_zero_unc_zero_Uy (p : ℕ)
    (lsolve : Matrix (Fin p) (Fin p) ℚ → (Fin p → ℚ) → (Fin p → ℚ))
    (lsolveM : Matrix (Fin p) (Fin p) ℚ → Matrix (Fin p) (Fin p) ℚ →
      Matrix (Fin p) (Fin p) ℚ)
    (dlyap : Matrix (Fin p) (Fin p) ℚ → Matrix (Fin p) (Fin p) ℚ →
      Matrix (Fin p) (Fin p) ℚ)
    (getCorrUnc : List ℚ → ℚ)
    (x Ux : List ℚ) (b a : Fin (p + 1) → ℚ)
    (Uab : Option (Matrix (Fin (2 * p + 1)) (Fin (2 * p + 1)) ℚ))
    (hUab : Uab = none ∨ Uab = some 0)
    (hUx : ∀ u ∈ Ux, u = 0)
    (hdlyap : dlyap (tf2ssA p a) 0 = 0) :
    (∀ q ∈ (IIRuncFilter p lsolve lsolveM dlyap getCorrUnc x Ux b a Uab none
        "diag").2.1, q = 0) ∧
    (∀ r ∈ ((IIRuncFilter p lsolve lsolveM dlyap getCorrUnc x Ux b a Uab none
        "diag").2.1.map fun q : ℚ => Real.sqrt |(q : ℝ)|), r = 0) := by
  have hP0 : (get_initial_internal_state p lsolve lsolveM dlyap getCorrUnc
      b a 0 0 none).P = 0 := by
    show dlyap (tf2ssA p a) ((0 : ℚ) ^ 2 • Matrix.vecMulVec (tf2ssB p) (tf2ssB p)) = 0
    rw [show ((0 : ℚ) ^ 2 • Matrix.vecMulVec (tf2ssB p) (tf2ssB p))
        = (0 : Matrix (Fin p) (Fin p) ℚ) by simp]
    exact hdlyap
  have hmem : ∀ pr ∈ x.zip Ux, pr.2 = 0 := fun pr hpr =>
    hUx pr.2 (List.of_mem_zip hpr).2
  rcases hUab with rfl | rfl
  · constructor
    · intro q hq
      exact (IIR_loop_diag_zero_unc p _ _ _ _ _ _ _ _ _ hP0 hmem).1 q hq
    · intro r hr
      obtain ⟨q, hq, rfl⟩ := List.mem_map.mp hr
      rw [(IIR_loop_diag_zero_unc p _ _ _ _ _ _ _ _ _ hP0 hmem).1 q hq]
      simp
  · constructor
    · intro q hq
      exact (IIR_loop_diag_zero_unc p _ _ _ _ _ _ _ _ _ hP0 hmem).1 q hq
    · intro r hr
      obtain ⟨q, hq, rfl⟩ := List.mem_map.mp hr
      rw [(IIR_loop_diag_zero_unc p _ _ _ _ _ _ _ _ _ hP0 hmem).1 q hq]
      simp

/-- Witness for the zero-uncertainty property at a concrete first-order
filter on `x = [1, 2]`. -/
theorem IIRuncFilter_zero_unc_zero_Uy_witness :
    ((none : Option (Matrix (Fin (2 * 1 + 1)) (Fin (2 * 1 + 1)) ℚ)) = none
        ∨ (none : Option (Matrix (Fin (2 * 1 + 1)) (Fin (2 * 1 + 1)) ℚ)) = some 0) ∧
    (∀ u ∈ [(0 : ℚ), 0], u = 0) ∧
    ((fun (_ : Matrix (Fin 1) (Fin 1) ℚ) (_ : Matrix (Fin 1) (Fin 1) ℚ) =>
        (0 : Matrix (Fin 1) (Fin 1) ℚ)) (tf2ssA 1 ![1, 1]) 0 = 0) ∧
    ((∀ q ∈ (IIRuncFilter 1 (fun _ v => v) (fun _ M => M) (fun _ _ => 0)
        (fun _ => 0) [1, 2] [0, 0] ![1, 1] ![1, 1] none none "diag").2.1, q = 0) ∧
      (∀ r ∈ ((IIRuncFilter 1 (fun _ v => v) (fun _ M => M) (fun _ _ => 0)
          (fun _ => 0) [1, 2] [0, 0] ![1, 1] ![1, 1] none none
          "diag").2.1.map fun q : ℚ => Real.sqrt |(q : ℝ)|), r = 0)) := by
  exact ⟨Or.inl rfl, by decide, rfl,
    IIRuncFilter_zero_unc_zero_Uy 1 (fun _ v => v) (fun _ M => M) (fun _ _ => 0)
      (fun _ => 0) [1, 2] [0, 0] ![1, 1] ![1, 1] none (Or.inl rfl) (by decide) rfl⟩

/-- Helper: `tf2ssA` is an affine function of the denominator
coefficients whose coefficient of `a[k+1]` is exactly the slice
`_get_derivative_A p k`, i.e. `_get_derivative_A` is the tensor of
partial derivatives of `A` with respect to `a[1:]`. -/
theorem derivA_char (p : ℕ) (a a' : Fin (p + 1) → ℚ) :
    tf2ssA p a' - tf2ssA p a
      = ∑ k, (a' k.succ - a k.succ) • _get_derivative_A p k := by
  ext i j
  simp only [Matrix.sub_apply, Matrix.sum_apply, Matrix.smul_apply, smul_eq_mul,
    tf2ssA, Matrix.of_apply, _get_derivative_A]
  by_cases hi : (i : ℕ) < p - 1
  · rw [if_pos hi, if_pos hi, sub_self]
    symm
    apply Finset.sum_eq_zero
    intro k _
    rw [if_neg (by omega), mul_zero]
  · rw [if_neg hi, if_neg hi]
    have hi' : (i : ℕ) = p - 1 := by have := i.isLt; omega
    rw [Finset.sum_eq_single (⟨p - 1 - (j : ℕ), by have := j.isLt; omega⟩ : Fin p)]
    · rw [if_pos ⟨hi', by show (j : ℕ) = p - 1 - (p - 1 - (j : ℕ)); have := j.isLt; omega⟩]
      have hsucc : ((⟨p - 1 - (j : ℕ), by have := j.isLt; omega⟩ : Fin p)).succ
          = (⟨p - (j : ℕ), by omega⟩ : Fin (p + 1)) := by
        ext
        simp only [Fin.val_succ]
        have := j.isLt
        omega
      rw [hsucc]
      ring
    · intro k _ hk
      rw [if_neg, mul_zero]
      rintro ⟨-, hjk⟩
      apply hk
      ext
      show (k : ℕ) = p - 1 - (j : ℕ)
      have hkp := k.isLt
      have hjp := j.isLt
      omega
    · intro habs
      exact absurd (Finset.mem_univ _) habs

/-- C10: under the contracts of the abstracted scipy solvers — `lsolve`
returns a solution of the assembled system `(I-A)·s = B`, `lsolveM` a
solution of `(I-A)·dz = hstack(dA@z)`, and `dlyap` a solution of the
discrete Lyapunov equation with right-hand side `U0²·B·Bᵗ` — the state
returned by `get_initial_internal_state` satisfies `(I-A)·z = B·x0`,
`(I-A)·dz = dA·z` (column `k` of the right-hand side being
`dA[k] @ z`, where `_get_derivative_A` is proved to be the tensor of
partial derivatives of `A` with respect to the denominator
coefficients), and `P = A·P·Aᵗ + U0²·B·Bᵗ`. -/
theorem get_initial_internal_state_solves (p : ℕ)
    (lsolve : Matrix (Fin p) (Fin p) ℚ → (Fin p → ℚ) → (Fin p → ℚ))
    (lsolveM : Matrix (Fin p) (Fin p) ℚ → Matrix (Fin p) (Fin p) ℚ →
      Matrix (Fin p) (Fin p) ℚ)
    (dlyap : Matrix (Fin p) (Fin p) ℚ → Matrix (Fin p) (Fin p) ℚ →
      Matrix (Fin p) (Fin p) ℚ)
    (getCorrUnc : List ℚ → ℚ)
    (b a : Fin (p + 1) → ℚ) (x0 U0 : ℚ) (UxOpt : Option (List ℚ))
    (hz : (1 - tf2ssA p a).mulVec (lsolve (1 - tf2ssA p a) (tf2ssB p)) = tf2ssB p)
    (hdz : (1 - tf2ssA p a) * lsolveM (1 - tf2ssA p a)
        (dA_hstack p (x0 • lsolve (1 - tf2ssA p a) (tf2ssB p)))
      = dA_hstack p (x0 • lsolve (1 - tf2ssA p a) (tf2ssB p)))
    (hP : dlyap (tf2ssA p a) (U0 ^ 2 • Matrix.vecMulVec (tf2ssB p) (tf2ssB p))
      = tf2ssA p a
          * dlyap (tf2ssA p a) (U0 ^ 2 • Matrix.vecMulVec (tf2ssB p) (tf2ssB p))
          * (tf2ssA p a)ᵀ
        + U0 ^ 2 • Matrix.vecMulVec (tf2ssB p) (tf2ssB p)) :
    ((1 - (get_initial_internal_state p lsolve lsolveM dlyap getCorrUnc
          b a x0 U0 UxOpt).A).mulVec
        (get_initial_internal_state p lsolve lsolveM dlyap getCorrUnc
          b a x0 U0 UxOpt).z
      = x0 • tf2ssB p) ∧
    ((1 - (get_initial_internal_state p lsolve lsolveM dlyap getCorrUnc
          b a x0 U0 UxOpt).A)
        * (get_initial_internal_state p lsolve lsolveM dlyap getCorrUnc
          b a x0 U0 UxOpt).dz
      = dA_hstack p (get_initial_internal_state p lsolve lsolveM dlyap getCorrUnc
          b a x0 U0 UxOpt).z) ∧
    (∀ i k : Fin p,
      dA_hstack p (get_initial_internal_state p lsolve lsolveM dlyap getCorrUnc
          b a x0 U0 UxOpt).z i k
        = ∑ j, _get_derivative_A p k i j
            * (get_initial_internal_state p lsolve lsolveM dlyap getCorrUnc
              b a x0 U0 UxOpt).z j) ∧
    (∀ a' : Fin (p + 1) → ℚ,
      tf2ssA p a' - tf2ssA p a
        = ∑ k, (a' k.succ - a k.succ) • _get_derivative_A p k) ∧
    ((get_initial_internal_state p lsolve lsolveM dlyap getCorrUnc
          b a x0 U0 UxOpt).P
      = (get_initial_internal_state p lsolve lsolveM dlyap getCorrUnc
          b a x0 U0 UxOpt).A
          * (get_initial_internal_state p lsolve lsolveM dlyap getCorrUnc
            b a x0 U0 UxOpt).P
          * ((get_initial_internal_state p lsolve lsolveM dlyap getCorrUnc
            b a x0 U0 UxOpt).A)ᵀ
        + U0 ^ 2 • Matrix.vecMulVec
            (get_initial_internal_state p lsolve lsolveM dlyap getCorrUnc
              b a x0 U0 UxOpt).bs
            (get_initial_internal_state p lsolve lsolveM dlyap getCorrUnc
              b a x0 U0 UxOpt).bs) := by
  refine ⟨?_, hdz, fun i k => rfl, derivA_char p a, hP⟩
  show (1 - tf2ssA p a).mulVec (x0 • lsolve (1 - tf2ssA p a) (tf2ssB p))
    = x0 • tf2ssB p
  rw [Matrix.mulVec_smul, hz]

/-- Witness for the initial-state solver contracts at `p = 1`,
`b = [5, 7]`, `a = [1, -2]`, `x0 = 3`, `U0 = 0`, with concrete solver
functions satisfying the contracts. -/
theorem get_initial_internal_state_solves_witness :
    ((1 - tf2ssA 1 ![1, -2]).mulVec
        ((fun (_ : Matrix (Fin 1) (Fin 1) ℚ) (_ : Fin 1 → ℚ) =>
          (fun _ => -1 : Fin 1 → ℚ)) (1 - tf2ssA 1 ![1, -2]) (tf2ssB 1))
      = tf2ssB 1) ∧
    ((1 - tf2ssA 1 ![1, -2]) * ((fun (_ M : Matrix (Fin 1) (Fin 1) ℚ) =>
          (-1 : ℚ) • M) (1 - tf2ssA 1 ![1, -2])
        (dA_hstack 1 ((3 : ℚ) • (fun (_ : Matrix (Fin 1) (Fin 1) ℚ)
            (_ : Fin 1 → ℚ) => (fun _ => -1 : Fin 1 → ℚ))
          (1 - tf2ssA 1 ![1, -2]) (tf2ssB 1))))
      = dA_hstack 1 ((3 : ℚ) • (fun (_ : Matrix (Fin 1) (Fin 1) ℚ)
            (_ : Fin 1 → ℚ) => (fun _ => -1 : Fin 1 → ℚ))
          (1 - tf2ssA 1 ![1, -2]) (tf2ssB 1))) ∧
    ((fun (_ _ : Matrix (Fin 1) (Fin 1) ℚ) => (0 : Matrix (Fin 1) (Fin 1) ℚ))
        (tf2ssA 1 ![1, -2]) ((0 : ℚ) ^ 2 • Matrix.vecMulVec (tf2ssB 1) (tf2ssB 1))
      = tf2ssA 1 ![1, -2]
          * (fun (_ _ : Matrix (Fin 1) (Fin 1) ℚ) => (0 : Matrix (Fin 1) (Fin 1) ℚ))
            (tf2ssA 1 ![1, -2])
            ((0 : ℚ) ^ 2 • Matrix.vecMulVec (tf2ssB 1) (tf2ssB 1))
          * (tf2ssA 1 ![1, -2])ᵀ
        + (0 : ℚ) ^ 2 • Matrix.vecMulVec (tf2ssB 1) (tf2ssB 1)) ∧
    ((1 - (get_initial_internal_state 1
          (fun _ _ => (fun _ => -1 : Fin 1 → ℚ)) (fun _ M => (-1 : ℚ) • M)
          (fun _ _ => 0) (fun _ => 0) ![5, 7] ![1, -2] 3 0 none).A).mulVec
        (get_initial_internal_state 1
          (fun _ _ => (fun _ => -1 : Fin 1 → ℚ)) (fun _ M => (-1 : ℚ) • M)
          (fun _ _ => 0) (fun _ => 0) ![5, 7] ![1, -2] 3 0 none).z
      = (3 : ℚ) • tf2ssB 1) := by
  have h1 : (1 - tf2ssA 1 ![1, -2]).mulVec
      ((fun (_ : Matrix (Fin 1) (Fin 1) ℚ) (_ : Fin 1 → ℚ) =>
        (fun _ => -1 : Fin 1 → ℚ)) (1 - tf2ssA 1 ![1, -2]) (tf2ssB 1))
      = tf2ssB 1 := by
    funext i
    fin_cases i
    simp [Matrix.mulVec, dotProduct, Fin.sum_univ_one, tf2ssA, tf2ssB,
      Matrix.one_apply, Matrix.sub_apply]
    norm_num
  have h2 : (1 - tf2ssA 1 ![1, -2]) * ((fun (_ M : Matrix (Fin 1) (Fin 1) ℚ) =>
        (-1 : ℚ) • M) (1 - tf2ssA 1 ![1, -2])
      (dA_hstack 1 ((3 : ℚ) • (fun (_ : Matrix (Fin 1) (Fin 1) ℚ)
          (_ : Fin 1 → ℚ) => (fun _ => -1 : Fin 1 → ℚ))
        (1 - tf2ssA 1 ![1, -2]) (tf2ssB 1))))
      = dA_hstack 1 ((3 : ℚ) • (fun (_ : Matrix (Fin 1) (Fin 1) ℚ)
          (_ : Fin 1 → ℚ) => (fun _ => -1 : Fin 1 → ℚ))
        (1 - tf2ssA 1 ![1, -2]) (tf2ssB 1)) := by
    ext i j
    fin_cases i
    fin_cases j
    simp [Matrix.mul_apply, dA_hstack, _get_derivative_A, Fin.sum_univ_one,
      tf2ssA, tf2ssB, Matrix.one_apply, Matrix.sub_apply, Matrix.smul_apply]
    norm_num
  have h3 : (fun (_ _ : Matrix (Fin 1) (Fin 1) ℚ) => (0 : Matrix (Fin 1) (Fin 1) ℚ))
        (tf2ssA 1 ![1, -2]) ((0 : ℚ) ^ 2 • Matrix.vecMulVec (tf2ssB 1) (tf2ssB 1))
      = tf2ssA 1 ![1, -2]
          * (fun (_ _ : Matrix (Fin 1) (Fin 1) ℚ) => (0 : Matrix (Fin 1) (Fin 1) ℚ))
            (tf2ssA 1 ![1, -2])
            ((0 : ℚ) ^ 2 • Matrix.vecMulVec (tf2ssB 1) (tf2ssB 1))
          * (tf2ssA 1 ![1, -2])ᵀ
        + (0 : ℚ) ^ 2 • Matrix.vecMulVec (tf2ssB 1) (tf2ssB 1) := by
    simp
  exact ⟨h1, h2, h3,
    (get_initial_internal_state_solves 1
      (fun _ _ => (fun _ => -1 : Fin 1 → ℚ)) (fun _ M => (-1 : ℚ) • M)
      (fun _ _ => 0) (fun _ => 0) ![5, 7] ![1, -2] 3 0 none h1 h2 h3).1⟩
